import Mathlib

/-!
Verification of the MGISA landform-mapping scripts.

The Python sources are embedded shallowly:

* floats become exact rationals (`ℚ`);
* Python dicts become association lists (`List (key × val)`) whose
  iteration order is the insertion order, or total functions whenever
  every access supplies a default (as in `Wnorm.get(cls, {}).get(clf, 0.0)`);
* fallible paths become `Option`.

`ensemble_E5_classification.py` is the core: `pick_ensemble_label`,
`normalize_per_class`, `read_metric_table`, `build_weight_dict`, and the
per-row update loop of `main` (modelled as `processRow`).
`accuracy_1pass_assessment.py` contributes `safe_div`, the per-class
metric columns and `overall_accuracy`, and `analyze_correlation.py`
contributes the highly-correlated-pair extraction.
-/

/-- The four classifiers: the keys of `CLASS_FIELDS` in
`ensemble_E5_classification.py`. -/
inductive Clf : Type
  | RTv11A2D50
  | RTv11A2D60
  | SVMv11A2D50
  | SVMv11A2D60
deriving DecidableEq

/-- The insertion order of the `CLASS_FIELDS` dict (the order in which the
update cursor reads the four prediction fields). -/
def CLASS_FIELDS_ORDER : List Clf :=
  [Clf.RTv11A2D50, Clf.RTv11A2D60, Clf.SVMv11A2D50, Clf.SVMv11A2D60]

/-- The field-key name of each classifier (keys of `CLASS_FIELDS`). -/
def clfName : Clf → String
  | Clf.RTv11A2D50 => "RTv11A2D50"
  | Clf.RTv11A2D60 => "RTv11A2D60"
  | Clf.SVMv11A2D50 => "SVMv11A2D50"
  | Clf.SVMv11A2D60 => "SVMv11A2D60"

/-- Constant `CLF_PRIORITY`: classifier priority order for tie-breaking. -/
def CLF_PRIORITY : List Clf :=
  [Clf.SVMv11A2D60, Clf.RTv11A2D60, Clf.SVMv11A2D50, Clf.RTv11A2D50]

/-- Constant `WEIGHT_POWER` (the script sets `1.00`; only a natural exponent is
representable exactly over `ℚ`, and the configured value is `1`). -/
def WEIGHT_POWER : ℕ := 1

/-- Constant `USE_LOWCONF_FALLBACK`. -/
def USE_LOWCONF_FALLBACK : Bool := true

/-- Constant `TAU = 0.55`, the low-confidence threshold. -/
def TAU : ℚ := 11/20

/-- Constant `ENABLE_WB_ELEV_RULE`. -/
def ENABLE_WB_ELEV_RULE : Bool := true

/-- Constant `SVM_RIVER_CLF = "SVMv11A2D60"`. -/
def SVM_RIVER_CLF : Clf := Clf.SVMv11A2D60

/-- Constant `CLS_WATER = "WATER BODY"`. -/
def CLS_WATER : String := "WATER BODY"

/-- Constant `ELEV_THRESH = 220.0` meters. -/
def ELEV_THRESH : ℚ := 220

/-! ### Small list helpers (Python `max` / `min` / dict-order dedup) -/

/-- Python `max` of a list (the script only applies it to the non-empty
dict `score.values()`; the `[]` case is an unused default). -/
def listMax : List ℚ → ℚ
  | [] => 0
  | x :: xs => xs.foldl max x

/-- Python `max(gen, default=d)`: the default is returned on an empty
sequence and does not take part in the comparison otherwise. -/
def listMaxD (d : ℚ) : List ℚ → ℚ
  | [] => d
  | x :: xs => xs.foldl max x

/-- Python `min(ranks) if ranks else d`. -/
def listMinD (d : ℕ) : List ℕ → ℕ
  | [] => d
  | x :: xs => xs.foldl min x

/-- Helper for `firstDedup`: drop the elements already seen. -/
def firstDedupAux (seen : List String) : List String → List String
  | [] => []
  | c :: l => if c ∈ seen then firstDedupAux seen l
    else c :: firstDedupAux (c :: seen) l

/-- First-occurrence deduplication: the key order of a Python dict built
by repeated insertion (used for `defaultdict` key order and for the
`set` of classes). -/
def firstDedup (l : List String) : List String := firstDedupAux [] l

/-- Python `sorted(l, key=f)[0]` for a non-empty `l`: the first element
attaining the minimal key (Python's sort is stable). -/
def argminFirst (f : String → ℕ) : List String → Option String
  | [] => none
  | c :: l => some (l.foldl (fun b x => if f x < f b then x else b) c)

/-! ### `pick_ensemble_label` -/

/-- The entries of `preds` that survive `if not cls: continue`. -/
def validOf (preds : List (Clf × String)) : List (Clf × String) :=
  preds.filter (fun p => p.2 ≠ "")

/-- The keys of the `score` / `voters_by_class` defaultdicts, in
insertion order. -/
def classesOf (preds : List (Clf × String)) : List String :=
  firstDedup ((validOf preds).map (fun p => p.2))

/-- The dict entry `voters_by_class[c]`: the `(clf, w)` pairs appended for class `c`,
in `preds` iteration order, with `w = Wnorm.get(cls, {}).get(clf, 0.0)`. -/
def votersFor (preds : List (Clf × String)) (W : String → Clf → ℚ) (c : String) :
    List (Clf × ℚ) :=
  ((validOf preds).filter (fun p => p.2 = c)).map (fun p => (p.1, W c p.1))

/-- The dict entry `score[c]`: the accumulated weight of the voters for class `c`. -/
def scoreOf (preds : List (Clf × String)) (W : String → Clf → ℚ) (c : String) : ℚ :=
  ((votersFor preds W c).map Prod.snd).sum

/-- Python `max(score.values())`. -/
def maxScoreOf (preds : List (Clf × String)) (W : String → Clf → ℚ) : ℚ :=
  listMax ((classesOf preds).map (scoreOf preds W))

/-- The list `winners = [c for c, s in score.items() if abs(s - max_score) < 1e-12]`. -/
def winnersOf (preds : List (Clf × String)) (W : String → Clf → ℚ) : List String :=
  (classesOf preds).filter (fun c => |scoreOf preds W c - maxScoreOf preds W| < 1/10^12)

/-- Python `max((w for (_clf, w) in voters_by_class[c]), default=0.0)`. -/
def topSingle (preds : List (Clf × String)) (W : String → Clf → ℚ) (c : String) : ℚ :=
  listMaxD 0 ((votersFor preds W c).map Prod.snd)

/-- The first tie-break loop over `winners`, carrying
`(best_w, tb1_candidates)`; starts from `(-1.0, [])`. -/
def tb1Fold (top : String → ℚ) : ℚ × List String → List String → ℚ × List String
  | st, [] => st
  | st, c :: rest =>
    if st.1 + 1/10^15 < top c then tb1Fold top (top c, [c]) rest
    else if |top c - st.1| ≤ 1/10^15 then tb1Fold top (st.1, st.2 ++ [c]) rest
    else tb1Fold top st rest

/-- Python `clf_priority_order.index(c) if c in clf_priority_order else 999`. -/
def rankOf (prio : List Clf) (k : Clf) : ℕ :=
  if k ∈ prio then prio.indexOf k else 999

/-- Function `best_priority_rank_for_class`: the minimum priority index over the
class's voters, `999` when no voter is in the priority list. -/
def bestRank (prio : List Clf) (preds : List (Clf × String)) (W : String → Clf → ℚ)
    (c : String) : ℕ :=
  listMinD 999
    ((((votersFor preds W c).map Prod.fst).filter (fun k => k ∈ prio)).map
      (fun k => prio.indexOf k))

/-- Winner selection of `pick_ensemble_label` (lines 170-193): the unique
near-max class, else tie-break 1 on the best single-voter weight, else
tie-break 2 on the best priority rank.  `none` models both the empty
`winners` situation and the (unreachable with non-negative weights)
`sorted([])[0]` crash. -/
def selectWinner (preds : List (Clf × String)) (W : String → Clf → ℚ)
    (prio : List Clf) : Option String :=
  let ws := winnersOf preds W
  if ws.length = 1 then ws.head?
  else
    let cands := (tb1Fold (topSingle preds W) (-1, []) ws).2
    if cands.length = 1 then cands.head?
    else argminFirst (bestRank prio preds W) cands

/-- The list `src`: the classifiers whose prediction equals the winner, sorted by
priority rank (Python's `sorted` with this key; stable). -/
def srcList (prio : List Clf) (preds : List (Clf × String)) (winner : String) :
    List Clf :=
  List.insertionSort (fun a b => rankOf prio a ≤ rankOf prio b)
    ((preds.filter (fun p => p.2 = winner)).map Prod.fst)

/-- Function `pick_ensemble_label(preds, Wnorm, clf_priority_order, use_lowconf, tau)`.
`none` stands for the `(None, [], 0.0)` return on an empty `score` (and
for the unreachable `IndexError` path). -/
def pick_ensemble_label (preds : List (Clf × String)) (W : String → Clf → ℚ)
    (prio : List Clf) (use_lowconf : Bool) (tau : ℚ) :
    Option (String × List Clf × ℚ) :=
  if validOf preds = [] then none
  else
    match selectWinner preds W prio with
    | none => none
    | some w0 =>
      if use_lowconf = true ∧ maxScoreOf preds W < tau then
        let voters := votersFor preds W w0
        let best_clf : Clf :=
          match voters with
          | [] => prio.getD 0 Clf.RTv11A2D50
          | v :: vs => (vs.foldl (fun b x => if b.2 < x.2 then x else b) v).1
        let w1 := (preds.lookup best_clf).getD w0
        some (w1, srcList prio preds w1,
          ((preds.filter (fun p => p.2 = w1)).map (fun p => W w1 p.1)).sum)
      else
        some (w0, srcList prio preds w0, maxScoreOf preds W)

/-! ### `normalize_per_class`, `read_metric_table`, `build_weight_dict` -/

/-- The dict `powered`: the raw weights, exponentiated unless `power == 1`. -/
def poweredOf (d : List (Clf × ℚ)) (power : ℕ) : List (Clf × ℚ) :=
  d.map (fun p => (p.1, if power ≠ 1 then p.2 ^ power else p.2))

/-- Per-class body of `normalize_per_class`. -/
def normalize_class (clf_dict : List (Clf × ℚ)) (power : ℕ) : List (Clf × ℚ) :=
  let powered := poweredOf clf_dict power
  let s := (powered.map Prod.snd).sum
  if 0 < s then powered.map (fun p => (p.1, p.2 / s))
  else clf_dict.map (fun p => (p.1, (0 : ℚ)))

/-- Function `normalize_per_class(weight_map, power)`. -/
def normalize_per_class (weight_map : List (String × List (Clf × ℚ)))
    (power : ℕ) : List (String × List (Clf × ℚ)) :=
  weight_map.map (fun e => (e.1, normalize_class e.2 power))

/-- A raw metric cell as read by the search cursor: a number, a float
NaN, a missing value (`None`), or a value `float()` cannot parse. -/
inductive Cell : Type
  | num (q : ℚ)
  | nan
  | missing
  | nonNumeric
deriving DecidableEq

/-- Python `float(val)` wrapped in `try`/`except` plus the `isnan` check: every
non-numeric, missing or NaN cell becomes `0.0`. -/
def tryFloat : Cell → ℚ
  | Cell.num q => q
  | Cell.nan => 0
  | Cell.missing => 0
  | Cell.nonNumeric => 0

/-- Python dict assignment `W[k] = v`: overwrite in place, else append. -/
def dictInsert (W : List (String × ℚ)) (k : String) (v : ℚ) : List (String × ℚ) :=
  if k ∈ W.map Prod.fst then W.map (fun p => if p.1 = k then (k, v) else p)
  else W ++ [(k, v)]

/-- Function `read_metric_table`: `W[str(cls)] = max(0.0, v)` over the cursor rows. -/
def read_metric_table (rows : List (String × Cell)) : List (String × ℚ) :=
  rows.foldl (fun W r => dictInsert W r.1 (max 0 (tryFloat r.2))) []

/-- Python `W.get(cls, 0.0)` on the dict returned by `read_metric_table`. -/
def lookupD (W : List (String × ℚ)) (c : String) : ℚ :=
  (W.lookup c).getD 0

/-- Function `build_weight_dict`: raw per-class weights from the four metric
tables, then `normalize_per_class`.  (The Python `set` union has no
specified iteration order; first-occurrence order is used here.) -/
def build_weight_dict (t_rt50 t_rt60 t_svm50 t_svm60 : List (String × Cell)) :
    List (String × List (Clf × ℚ)) :=
  let w_rt50 := read_metric_table t_rt50
  let w_rt60 := read_metric_table t_rt60
  let w_svm50 := read_metric_table t_svm50
  let w_svm60 := read_metric_table t_svm60
  let all_classes := firstDedup
    (w_rt50.map Prod.fst ++ w_rt60.map Prod.fst ++
     w_svm50.map Prod.fst ++ w_svm60.map Prod.fst)
  normalize_per_class
    (all_classes.map (fun c =>
      (c, [(Clf.RTv11A2D50, lookupD w_rt50 c),
           (Clf.RTv11A2D60, lookupD w_rt60 c),
           (Clf.SVMv11A2D50, lookupD w_svm50 c),
           (Clf.SVMv11A2D60, lookupD w_svm60 c)]))) WEIGHT_POWER

/-! ### The per-row update loop of `main` (with the WB-ELEV rule) -/

/-- The written row: the `E5`, `E5_src` and `E5_score` field values
(`none` = NULL). -/
structure RowResult : Type where
  e5 : Option String
  e5_src : Option String
  e5_score : Option ℚ
deriving DecidableEq

/-- Building the per-row `preds` dict: `None` and `""` values are
dropped, everything else is kept as a string. -/
def buildPreds (vals : List (Clf × Option String)) : List (Clf × String) :=
  vals.filterMap (fun p =>
    match p.2 with
    | none => none
    | some s => if s = "" then none else some (p.1, s))

/-- The WB-ELEV override (lines 303-313 of `main`): one-directional
switch to `CLS_WATER` when the mean elevation is present, at most
`ELEV_THRESH`, and the SVM-D60 prediction is `CLS_WATER`. -/
def wbOverride (preds : List (Clf × String)) (W : String → Clf → ℚ)
    (prio : List Clf) (mean_z : Option ℚ)
    (r : Option String × List Clf × ℚ) : Option String × List Clf × ℚ :=
  match mean_z with
  | none => r
  | some z =>
    if z ≤ ELEV_THRESH ∧ preds.lookup SVM_RIVER_CLF = some CLS_WATER then
      (some CLS_WATER, srcList prio preds CLS_WATER,
        ((preds.filter (fun p => p.2 = CLS_WATER)).map
          (fun p => W CLS_WATER p.1)).sum)
    else r

/-- The four prediction field values of one cursor row, in `CLASS_FIELDS`
order. -/
def rowVals (v1 v2 v3 v4 : Option String) : List (Clf × Option String) :=
  [(Clf.RTv11A2D50, v1), (Clf.RTv11A2D60, v2),
   (Clf.SVMv11A2D50, v3), (Clf.SVMv11A2D60, v4)]

/-- One iteration of the update cursor in `main`: the four prediction
field values are read in `CLASS_FIELDS` order, `pick_ensemble_label` is
called with the configured fallback and `TAU`, the WB-ELEV rule is
applied when enabled, and the three output fields are written.
(The global `ENABLE_WB_ELEV_RULE` flag is the `enable_rule` parameter.)
A `none` pick stands for the Python `(None, [], 0.0)` return. -/
def processRow (v1 v2 v3 v4 : Option String) (W : String → Clf → ℚ)
    (mean_z : Option ℚ) (enable_rule : Bool) : RowResult :=
  let preds := buildPreds (rowVals v1 v2 v3 v4)
  let r0 : Option String × List Clf × ℚ :=
    match pick_ensemble_label preds W CLF_PRIORITY USE_LOWCONF_FALLBACK TAU with
    | none => (none, [], 0)
    | some (w, s, sc) => (some w, s, sc)
  let r1 := if enable_rule then wbOverride preds W CLF_PRIORITY mean_z r0 else r0
  { e5 := match r1.1 with
      | none => none
      | some w => if w = "" then none else some w
    e5_src := if r1.2.1 = [] then none
      else some (String.intercalate "+" (r1.2.1.map clfName))
    e5_score := some r1.2.2 }

/-! ### `accuracy_1pass_assessment.py`: `safe_div`, metric columns, OA -/

/-- Function `safe_div(a, b) = a / b if (b and b != 0) else 0.0`. -/
def safe_div (a b : ℚ) : ℚ :=
  if b ≠ 0 then a / b else 0

/-- Column `Producer_Accuracy = safe_div(Correct_Area, Ref_Total_Area)`, as computed before the presentation-only rounding of the output table. -/
def Producer_Accuracy (c r : ℚ) : ℚ := safe_div c r

/-- Column `User_Accuracy = safe_div(Correct_Area, Pred_Total_Area)`. -/
def User_Accuracy (c p : ℚ) : ℚ := safe_div c p

/-- Column `IoU = safe_div(Correct_Area, Ref_Total_Area + Pred_Total_Area - Correct_Area)`. -/
def IoU (c r p : ℚ) : ℚ := safe_div c (r + p - c)

/-- Column `F1_Score = safe_div(2*(pa*ua), pa+ua) if (pa+ua) != 0 else 0.0`. -/
def F1_Score (c r p : ℚ) : ℚ :=
  if Producer_Accuracy c r + User_Accuracy c p ≠ 0 then
    safe_div (2 * (Producer_Accuracy c r * User_Accuracy c p))
      (Producer_Accuracy c r + User_Accuracy c p)
  else 0

/-- Function `overall_accuracy` (line 198): each row is a
`(Correct_Area, Ref_Total_Area)` pair of the per-class table as it stands at
that point of the script (the columns have been rounded for presentation);
`x / y if y else 0.0`.  The identity proved about it holds for whatever
values the rows carry. -/
def overall_accuracy (rows : List (ℚ × ℚ)) : ℚ :=
  if (rows.map Prod.snd).sum ≠ 0 then
    (rows.map Prod.fst).sum / (rows.map Prod.snd).sum
  else 0

/-! ### `analyze_correlation.py`: highly-correlated pair extraction -/

/-- The strict upper triangle of the correlation matrix in row-major
order: what `correlation_matrix.where(np.triu(..., k=1)).stack()`
keeps. -/
def upperPairs (names : List String) (corr : String → String → ℚ) :
    List (String × String × ℚ) :=
  match names with
  | [] => []
  | x :: rest => rest.map (fun y => (x, y, corr x y)) ++ upperPairs rest corr

/-- The table `high_corr_filtered`: the upper-triangle pairs whose correlation has
absolute value strictly above the threshold. -/
def high_corr_filtered (names : List String) (corr : String → String → ℚ)
    (threshold : ℚ) : List (String × String × ℚ) :=
  (upperPairs names corr).filter (fun t => threshold < |t.2.2|)

/-- The file `high_corr_pairs.csv` is written iff `not high_corr_filtered.empty`. -/
def writes_high_corr_csv (names : List String) (corr : String → String → ℚ) :
    Bool :=
  !(high_corr_filtered names corr (85/100)).isEmpty

/-! ### Concrete inputs used by witnesses and counterexamples -/

/-- A one-voter prediction map. -/
def exPreds1 : List (Clf × String) := [(Clf.RTv11A2D50, "A")]

/-- A constant weight table. -/
def exW1 : String → Clf → ℚ := fun _ _ => 1/4

/-- Two voters for two distinct classes with exactly equal weights. -/
def exPreds2 : List (Clf × String) := [(Clf.RTv11A2D50, "A"), (Clf.RTv11A2D60, "B")]

/-- Weights giving `exPreds2` an exact score tie between `A` and `B`. -/
def exW2 : String → Clf → ℚ := fun c k =>
  if (c = "A" ∧ k = Clf.RTv11A2D50) ∨ (c = "B" ∧ k = Clf.RTv11A2D60) then 3/10 else 0

/-- Two classes whose scores differ by `1e-13`: inside the `1e-12`
near-tie tolerance but outside the `1e-15` single-voter tolerance. -/
def cexPreds : List (Clf × String) :=
  [(Clf.RTv11A2D50, "A"), (Clf.RTv11A2D60, "A"), (Clf.SVMv11A2D50, "B")]

/-- Weights for `cexPreds`: class `A` scores `3/10` from two voters of
`3/20` each, class `B` scores `3/10 - 1e-13` from a single voter. -/
def cexW : String → Clf → ℚ := fun c k =>
  if c = "A" ∧ (k = Clf.RTv11A2D50 ∨ k = Clf.RTv11A2D60) then 3/20
  else if c = "B" ∧ k = Clf.SVMv11A2D50 then 3/10 - 1/10^13
  else 0

/-- A per-class raw weight row used by witnesses. -/
def exD : List (Clf × ℚ) := [(Clf.RTv11A2D50, 3/4), (Clf.RTv11A2D60, 1/4)]

/-- A one-class weight map used by witnesses. -/
def exWM : List (String × List (Clf × ℚ)) := [("A", exD)]

/-! ## Helper lemmas -/

theorem le_foldl_max (l : List ℚ) (x : ℚ) : x ≤ l.foldl max x := by
  induction l generalizing x with
  | nil => exact le_refl x
  | cons y ys ih => exact le_trans (le_max_left x y) (ih (max x y))

theorem foldl_max_cases (l : List ℚ) (x : ℚ) :
    l.foldl max x = x ∨ l.foldl max x ∈ l := by
  induction l generalizing x with
  | nil => exact Or.inl rfl
  | cons y ys ih =>
    rcases ih (max x y) with h | h
    · rcases max_choice x y with hx | hy
      · exact Or.inl (by rw [List.foldl_cons, h, hx])
      · exact Or.inr (by rw [List.foldl_cons, h, hy]; exact List.mem_cons_self _ _)
    · exact Or.inr (List.mem_cons_of_mem _ h)

theorem le_foldl_max_of_mem {l : List ℚ} {a : ℚ} (x : ℚ) (h : a ∈ l) :
    a ≤ l.foldl max x := by
  induction l generalizing x with
  | nil => cases h
  | cons y ys ih =>
    rcases List.mem_cons.mp h with rfl | h
    · exact le_trans (le_max_right x a) (le_foldl_max ys _)
    · exact ih (max x y) h

theorem listMax_mem {l : List ℚ} (h : l ≠ []) : listMax l ∈ l := by
  cases l with
  | nil => exact absurd rfl h
  | cons x xs =>
    rcases foldl_max_cases xs x with h1 | h1
    · rw [listMax, h1]; exact List.mem_cons_self _ _
    · rw [listMax]; exact List.mem_cons_of_mem _ h1

theorem le_listMax {l : List ℚ} {a : ℚ} (h : a ∈ l) : a ≤ listMax l := by
  cases l with
  | nil => cases h
  | cons x xs =>
    rcases List.mem_cons.mp h with rfl | h1
    · exact le_foldl_max xs a
    · exact le_foldl_max_of_mem x h1

theorem listMaxD_nonneg {l : List ℚ} (h : ∀ x ∈ l, 0 ≤ x) : 0 ≤ listMaxD 0 l := by
  cases l with
  | nil => exact le_refl 0
  | cons x xs =>
    exact le_trans (h x (List.mem_cons_self _ _)) (le_foldl_max xs x)

theorem mem_firstDedupAux {a : String} :
    ∀ (l seen : List String), a ∈ firstDedupAux seen l ↔ a ∈ l ∧ a ∉ seen := by
  intro l
  induction l with
  | nil => intro seen; simp [firstDedupAux]
  | cons c t ih =>
    intro seen
    rw [firstDedupAux]
    by_cases hc : c ∈ seen
    · rw [if_pos hc, ih seen]
      constructor
      · rintro ⟨h1, h2⟩
        exact ⟨List.mem_cons_of_mem _ h1, h2⟩
      · rintro ⟨h1, h2⟩
        rcases List.mem_cons.mp h1 with rfl | h1
        · exact absurd hc h2
        · exact ⟨h1, h2⟩
    · rw [if_neg hc, List.mem_cons, ih (c :: seen)]
      by_cases hac : a = c
      · subst hac
        simp [hc]
      · simp [hac, List.mem_cons]

theorem mem_firstDedup {a : String} {l : List String} :
    a ∈ firstDedup l ↔ a ∈ l := by
  rw [firstDedup, mem_firstDedupAux]
  simp

theorem firstDedupAux_nodup :
    ∀ (l seen : List String), (firstDedupAux seen l).Nodup := by
  intro l
  induction l with
  | nil => intro seen; simp [firstDedupAux]
  | cons c t ih =>
    intro seen
    rw [firstDedupAux]
    by_cases hc : c ∈ seen
    · rw [if_pos hc]; exact ih seen
    · rw [if_neg hc]
      refine List.nodup_cons.mpr ⟨?_, ih (c :: seen)⟩
      intro hmem
      exact ((mem_firstDedupAux t (c :: seen)).mp hmem).2 (List.mem_cons_self _ _)

theorem firstDedup_nodup (l : List String) : (firstDedup l).Nodup :=
  firstDedupAux_nodup l []

theorem argminFirst_spec {f : String → ℕ} {l : List String} {w : String}
    (h : argminFirst f l = some w) : w ∈ l ∧ ∀ x ∈ l, f w ≤ f x := by
  cases l with
  | nil => cases h
  | cons c rest =>
    rw [argminFirst, Option.some_inj] at h
    subst h
    suffices H : ∀ (rest : List String) (acc : String),
        (rest.foldl (fun b x => if f x < f b then x else b) acc = acc ∨
          rest.foldl (fun b x => if f x < f b then x else b) acc ∈ rest) ∧
        f (rest.foldl (fun b x => if f x < f b then x else b) acc) ≤ f acc ∧
        ∀ x ∈ rest, f (rest.foldl (fun b x => if f x < f b then x else b) acc) ≤ f x by
      obtain ⟨h1, h2, h3⟩ := H rest c
      constructor
      · rcases h1 with h1 | h1
        · rw [h1]; exact List.mem_cons_self _ _
        · exact List.mem_cons_of_mem _ h1
      · intro x hx
        rcases List.mem_cons.mp hx with rfl | hx
        · exact h2
        · exact h3 x hx
    intro rest
    induction rest with
    | nil => exact fun acc => ⟨Or.inl rfl, le_refl _, by simp⟩
    | cons y ys ih =>
      intro acc
      obtain ⟨ih1, ih2, ih3⟩ := ih (if f y < f acc then y else acc)
      simp only [List.foldl_cons]
      refine ⟨?_, ?_, ?_⟩
      · rcases ih1 with h1 | h1
        · rw [h1]
          split
          · exact Or.inr (List.mem_cons_self _ _)
          · exact Or.inl rfl
        · exact Or.inr (List.mem_cons_of_mem _ h1)
      · refine le_trans ih2 ?_
        split
        · exact le_of_lt (by assumption)
        · exact le_refl _
      · intro x hx
        rcases List.mem_cons.mp hx with rfl | hx
        · refine le_trans ih2 ?_
          split
          · exact le_refl _
          · exact le_of_not_lt (by assumption)
        · exact ih3 x hx

theorem mem_classesOf {preds : List (Clf × String)} {c : String} :
    c ∈ classesOf preds ↔ ∃ k, (k, c) ∈ validOf preds := by
  rw [classesOf, mem_firstDedup, List.mem_map]
  constructor
  · rintro ⟨p, hp, rfl⟩
    exact ⟨p.1, by simpa using hp⟩
  · rintro ⟨k, hk⟩
    exact ⟨(k, c), hk, rfl⟩

theorem classesOf_ne_empty_str {preds : List (Clf × String)} {c : String}
    (h : c ∈ classesOf preds) : c ≠ "" := by
  obtain ⟨k, hk⟩ := mem_classesOf.mp h
  have := List.of_mem_filter hk
  simpa using this

theorem mem_validOf_of_mem_classesOf {preds : List (Clf × String)} {c : String}
    (h : c ∈ classesOf preds) : ∃ k, (k, c) ∈ validOf preds :=
  mem_classesOf.mp h

theorem votersFor_ne_nil {preds : List (Clf × String)} {W : String → Clf → ℚ}
    {c : String} (h : c ∈ classesOf preds) : votersFor preds W c ≠ [] := by
  obtain ⟨k, hk⟩ := mem_classesOf.mp h
  rw [votersFor]
  intro hcon
  have : (k, c) ∈ (validOf preds).filter (fun p => p.2 = c) :=
    List.mem_filter.mpr ⟨hk, by simp⟩
  have : ((k : Clf), W c k) ∈
      ((validOf preds).filter (fun p => p.2 = c)).map (fun p => (p.1, W c p.1)) :=
    List.mem_map.mpr ⟨(k, c), this, rfl⟩
  rw [hcon] at this
  cases this

theorem mem_votersFor {preds : List (Clf × String)} {W : String → Clf → ℚ}
    {c : String} {k : Clf} {w : ℚ} (h : (k, w) ∈ votersFor preds W c) :
    (k, c) ∈ preds ∧ w = W c k := by
  rw [votersFor, List.mem_map] at h
  obtain ⟨p, hp, hpe⟩ := h
  have h1 := List.mem_filter.mp hp
  have h2 : p.2 = c := by simpa using h1.2
  have h3 : p.1 = k := congrArg Prod.fst hpe
  have h4 : w = W c p.1 := (congrArg Prod.snd hpe).symm
  refine ⟨?_, by rw [h4, h3]⟩
  have h5 : p ∈ validOf preds := h1.1
  have h6 : p ∈ preds := List.mem_of_mem_filter h5
  have : p = (k, c) := by
    cases p
    simp only at h2 h3
    rw [h2, h3]
  rwa [this] at h6

theorem votersFor_weight_nonneg {preds : List (Clf × String)} {W : String → Clf → ℚ}
    (hW : ∀ c k, 0 ≤ W c k) {c : String} :
    ∀ q ∈ votersFor preds W c, 0 ≤ q.2 := by
  intro q hq
  rw [votersFor, List.mem_map] at hq
  obtain ⟨p, _, rfl⟩ := hq
  exact hW c p.1

theorem topSingle_nonneg (preds : List (Clf × String)) {W : String → Clf → ℚ}
    (hW : ∀ c k, 0 ≤ W c k) (c : String) : 0 ≤ topSingle preds W c := by
  rw [topSingle]
  refine listMaxD_nonneg ?_
  intro x hx
  rw [List.mem_map] at hx
  obtain ⟨q, hq, rfl⟩ := hx
  exact votersFor_weight_nonneg hW q hq

theorem lookup_eq_of_mem_nodup {l : List (Clf × String)} {k : Clf} {v : String}
    (hnd : (l.map Prod.fst).Nodup) (h : (k, v) ∈ l) : l.lookup k = some v := by
  induction l with
  | nil => cases h
  | cons p t ih =>
    obtain ⟨a, b⟩ := p
    rw [List.map_cons, List.nodup_cons] at hnd
    rcases List.mem_cons.mp h with he | ht
    · have h1 : k = a := (congrArg Prod.fst he)
      have h2 : v = b := (congrArg Prod.snd he)
      subst h1; subst h2
      simp [List.lookup]
    · have hka : k ≠ a := by
        rintro rfl
        exact hnd.1 (List.mem_map.mpr ⟨(k, v), ht, rfl⟩)
      rw [List.lookup]
      have : (k == a) = false := beq_false_of_ne hka
      rw [this]
      exact ih hnd.2 ht

theorem foldBest_spec (v : Clf × ℚ) (vs : List (Clf × ℚ)) :
    vs.foldl (fun b x => if b.2 < x.2 then x else b) v ∈ v :: vs ∧
    ∀ q ∈ v :: vs, q.2 ≤ (vs.foldl (fun b x => if b.2 < x.2 then x else b) v).2 := by
  suffices H : ∀ (vs : List (Clf × ℚ)) (acc : Clf × ℚ),
      (vs.foldl (fun b x => if b.2 < x.2 then x else b) acc = acc ∨
        vs.foldl (fun b x => if b.2 < x.2 then x else b) acc ∈ vs) ∧
      acc.2 ≤ (vs.foldl (fun b x => if b.2 < x.2 then x else b) acc).2 ∧
      ∀ q ∈ vs, q.2 ≤ (vs.foldl (fun b x => if b.2 < x.2 then x else b) acc).2 by
    obtain ⟨h1, h2, h3⟩ := H vs v
    constructor
    · rcases h1 with h1 | h1
      · rw [h1]; exact List.mem_cons_self _ _
      · exact List.mem_cons_of_mem _ h1
    · intro q hq
      rcases List.mem_cons.mp hq with rfl | hq
      · exact h2
      · exact h3 q hq
  intro vs
  induction vs with
  | nil => exact fun acc => ⟨Or.inl rfl, le_refl _, by simp⟩
  | cons y ys ih =>
    intro acc
    obtain ⟨ih1, ih2, ih3⟩ := ih (if acc.2 < y.2 then y else acc)
    simp only [List.foldl_cons]
    refine ⟨?_, ?_, ?_⟩
    · rcases ih1 with h1 | h1
      · rw [h1]
        split
        · exact Or.inr (List.mem_cons_self _ _)
        · exact Or.inl rfl
      · exact Or.inr (List.mem_cons_of_mem _ h1)
    · refine le_trans ?_ ih2
      split
      · exact le_of_lt (by assumption)
      · exact le_refl _
    · intro q hq
      rcases List.mem_cons.mp hq with rfl | hq
      · refine le_trans ?_ ih2
        split
        · exact le_refl _
        · exact le_of_not_lt (by assumption)
      · exact ih3 q hq

theorem tb1Fold_mem {top : String → ℚ} :
    ∀ (l : List String) (st : ℚ × List String) (x : String),
      x ∈ (tb1Fold top st l).2 → x ∈ st.2 ∨ x ∈ l := by
  intro l
  induction l with
  | nil => intro st x hx; exact Or.inl hx
  | cons c rest ih =>
    intro st x hx
    rw [tb1Fold] at hx
    split at hx
    · rcases ih _ _ hx with h | h
      · rcases List.mem_singleton.mp h with rfl
        exact Or.inr (List.mem_cons_self _ _)
      · exact Or.inr (List.mem_cons_of_mem _ h)
    · split at hx
      · rcases ih _ _ hx with h | h
        · rcases List.mem_append.mp h with h1 | h1
          · exact Or.inl h1
          · rcases List.mem_singleton.mp h1 with rfl
            exact Or.inr (List.mem_cons_self _ _)
        · exact Or.inr (List.mem_cons_of_mem _ h)
      · rcases ih _ _ hx with h | h
        · exact Or.inl h
        · exact Or.inr (List.mem_cons_of_mem _ h)

theorem tb1Fold_ne_nil {top : String → ℚ} :
    ∀ (l : List String) (st : ℚ × List String), st.2 ≠ [] →
      (tb1Fold top st l).2 ≠ [] := by
  intro l
  induction l with
  | nil => intro st h; exact h
  | cons c rest ih =>
    intro st h
    rw [tb1Fold]
    split
    · exact ih _ (by simp)
    · split
      · exact ih _ (by simp)
      · exact ih _ h

theorem tb1Fold_all_below {top : String → ℚ} :
    ∀ (l : List String) (bw : ℚ) (cands : List String),
      (∀ c ∈ l, top c < bw - 1/10^15) →
      tb1Fold top (bw, cands) l = (bw, cands) := by
  intro l
  induction l with
  | nil => intro bw cands _; rfl
  | cons c rest ih =>
    intro bw cands h
    have hc := h c (List.mem_cons_self _ _)
    rw [tb1Fold]
    rw [if_neg (by push_cast; linarith), if_neg (by rw [abs_le]; push_neg; intro h1; linarith)]
    exact ih bw cands (fun d hd => h d (List.mem_cons_of_mem _ hd))

theorem tb1Fold_dominant {top : String → ℚ} {w : String} :
    ∀ (l : List String) (bw : ℚ) (cands : List String),
      w ∈ l → l.Nodup →
      (∀ c ∈ l, c ≠ w → top c + 1/10^15 < top w) →
      bw + 1/10^15 < top w →
      tb1Fold top (bw, cands) l = (top w, [w]) := by
  intro l
  induction l with
  | nil => intro bw cands h; cases h
  | cons c rest ih =>
    intro bw cands hw hnd hdom hbw
    rw [List.nodup_cons] at hnd
    rcases List.mem_cons.mp hw with rfl | hwrest
    · rw [tb1Fold, if_pos hbw]
      refine tb1Fold_all_below rest (top w) [w] ?_
      intro d hd
      have hdc : d ≠ w := fun he => hnd.1 (he ▸ hd)
      have := hdom d (List.mem_cons_of_mem _ hd) hdc
      linarith
    · have hcw : c ≠ w := fun he => hnd.1 (he ▸ hwrest)
      have hc := hdom c (List.mem_cons_self _ _) hcw
      have hdom2 : ∀ d ∈ rest, d ≠ w → top d + 1/10^15 < top w :=
        fun d hd => hdom d (List.mem_cons_of_mem _ hd)
      rw [tb1Fold]
      split
      · exact ih _ _ hwrest hnd.2 hdom2 (by linarith)
      · split
        · exact ih _ _ hwrest hnd.2 hdom2 hbw
        · exact ih _ _ hwrest hnd.2 hdom2 hbw

theorem tb1Fold_all_near {top : String → ℚ} :
    ∀ (l : List String) (bw : ℚ) (cands : List String),
      (∀ c ∈ l, |top c - bw| ≤ 1/10^15) →
      tb1Fold top (bw, cands) l = (bw, cands ++ l) := by
  intro l
  induction l with
  | nil => intro bw cands _; simp [tb1Fold]
  | cons c rest ih =>
    intro bw cands h
    have hc := h c (List.mem_cons_self _ _)
    have hc2 : ¬ (bw + 1/10^15 < top c) := by
      rw [abs_le] at hc
      push_neg
      linarith [hc.2]
    rw [tb1Fold, if_neg hc2, if_pos hc]
    rw [ih bw (cands ++ [c]) (fun d hd => h d (List.mem_cons_of_mem _ hd))]
    simp

theorem winnersOf_sub_classes {preds : List (Clf × String)} {W : String → Clf → ℚ}
    {c : String} (h : c ∈ winnersOf preds W) : c ∈ classesOf preds :=
  List.mem_of_mem_filter h

theorem winnersOf_near_max {preds : List (Clf × String)} {W : String → Clf → ℚ}
    {c : String} (h : c ∈ winnersOf preds W) :
    |scoreOf preds W c - maxScoreOf preds W| < 1/10^12 := by
  have := List.of_mem_filter h
  simpa using this

theorem winnersOf_nodup (preds : List (Clf × String)) (W : String → Clf → ℚ) :
    (winnersOf preds W).Nodup :=
  (firstDedup_nodup _).filter _

theorem selectWinner_mem {preds : List (Clf × String)} {W : String → Clf → ℚ}
    {prio : List Clf} {w : String} (h : selectWinner preds W prio = some w) :
    w ∈ winnersOf preds W := by
  simp only [selectWinner] at h
  split at h
  · exact List.mem_of_mem_head? h
  · split at h
    · have hm := List.mem_of_mem_head? h
      rcases tb1Fold_mem _ _ _ hm with h1 | h1
      · cases h1
      · exact h1
    · have := (argminFirst_spec h).1
      rcases tb1Fold_mem _ _ _ this with h1 | h1
      · cases h1
      · exact h1

theorem filter_winner_eq_valid {preds : List (Clf × String)} {w0 : String}
    (hw0 : w0 ≠ "") :
    preds.filter (fun p => p.2 = w0) = (validOf preds).filter (fun p => p.2 = w0) := by
  rw [validOf, List.filter_filter]
  refine List.filter_congr ?_
  intro x _
  by_cases h : x.2 = w0
  · have h2 : x.2 ≠ "" := by rw [h]; exact hw0
    simp [h, h2, hw0]
  · simp [h]

theorem recomputed_eq_scoreOf {preds : List (Clf × String)} {W : String → Clf → ℚ}
    {w0 : String} (hw0 : w0 ≠ "") :
    ((preds.filter (fun p => p.2 = w0)).map (fun p => W w0 p.1)).sum =
      scoreOf preds W w0 := by
  rw [scoreOf, votersFor, List.map_map, filter_winner_eq_valid hw0]
  rfl

theorem selectWinner_valid_ne_nil {preds : List (Clf × String)}
    {W : String → Clf → ℚ} {prio : List Clf} {w0 : String}
    (hsel : selectWinner preds W prio = some w0) : validOf preds ≠ [] := by
  obtain ⟨k, hk⟩ := mem_classesOf.mp (winnersOf_sub_classes (selectWinner_mem hsel))
  exact List.ne_nil_of_mem hk

theorem pick_eq_nolow {preds : List (Clf × String)} {W : String → Clf → ℚ}
    {prio : List Clf} {w0 : String} {u : Bool} {tau : ℚ}
    (hsel : selectWinner preds W prio = some w0)
    (hcond : ¬(u = true ∧ maxScoreOf preds W < tau)) :
    pick_ensemble_label preds W prio u tau =
      some (w0, srcList prio preds w0, maxScoreOf preds W) := by
  rw [pick_ensemble_label, if_neg (by simpa using selectWinner_valid_ne_nil hsel), hsel]
  simp only
  rw [if_neg hcond]

theorem pick_eq_low {preds : List (Clf × String)} {W : String → Clf → ℚ}
    {prio : List Clf} {w0 : String} {tau : ℚ}
    (hnd : (preds.map Prod.fst).Nodup)
    (hsel : selectWinner preds W prio = some w0)
    (htau : maxScoreOf preds W < tau) :
    pick_ensemble_label preds W prio true tau =
      some (w0, srcList prio preds w0, scoreOf preds W w0) := by
  have hcls : w0 ∈ classesOf preds := winnersOf_sub_classes (selectWinner_mem hsel)
  have hw0 : w0 ≠ "" := classesOf_ne_empty_str hcls
  obtain ⟨v, vs, hv⟩ := List.exists_cons_of_ne_nil (votersFor_ne_nil (W := W) hcls)
  have hbest := foldBest_spec v vs
  rw [← hv] at hbest
  have hmem := mem_votersFor (hbest.1)
  have hlk : preds.lookup (vs.foldl (fun b x => if b.2 < x.2 then x else b) v).1 =
      some w0 := lookup_eq_of_mem_nodup hnd hmem.1
  rw [pick_ensemble_label, if_neg (by simpa using selectWinner_valid_ne_nil hsel), hsel]
  simp only [hv, hlk, Option.getD_some, recomputed_eq_scoreOf hw0]
  rw [if_pos ⟨trivial, htau⟩]

theorem classesOf_ne_nil {preds : List (Clf × String)} (hne : validOf preds ≠ []) :
    classesOf preds ≠ [] := by
  obtain ⟨p, t, hv⟩ := List.exists_cons_of_ne_nil hne
  rw [classesOf, hv, List.map_cons, firstDedup, firstDedupAux]
  simp

theorem winnersOf_ne_nil {preds : List (Clf × String)} {W : String → Clf → ℚ}
    (hne : validOf preds ≠ []) : winnersOf preds W ≠ [] := by
  have hcl : classesOf preds ≠ [] := classesOf_ne_nil hne
  have hmap : (classesOf preds).map (scoreOf preds W) ≠ [] := by
    simpa using hcl
  have hm := listMax_mem hmap
  rw [List.mem_map] at hm
  obtain ⟨c, hc, hce⟩ := hm
  have : c ∈ winnersOf preds W := by
    rw [winnersOf]
    refine List.mem_filter.mpr ⟨hc, ?_⟩
    rw [maxScoreOf, hce]
    simp only [sub_self, abs_zero, decide_eq_true_eq]
    norm_num
  exact List.ne_nil_of_mem this

theorem selectWinner_isSome {preds : List (Clf × String)} {W : String → Clf → ℚ}
    (prio : List Clf) (hW : ∀ c k, 0 ≤ W c k) (hne : validOf preds ≠ []) :
    ∃ w0, selectWinner preds W prio = some w0 := by
  have hws : winnersOf preds W ≠ [] := winnersOf_ne_nil hne
  by_cases h1 : (winnersOf preds W).length = 1
  · obtain ⟨a, t, ha⟩ := List.exists_cons_of_ne_nil hws
    exact ⟨a, by
      simp only [selectWinner, ha]
      rw [if_pos (show (a :: t).length = 1 from ha ▸ h1), List.head?_cons]⟩
  · have hcne : (tb1Fold (topSingle preds W) (-1, []) (winnersOf preds W)).2 ≠ [] := by
      obtain ⟨a, t, ha⟩ := List.exists_cons_of_ne_nil hws
      rw [ha, tb1Fold,
        if_pos (show (-1 : ℚ) + 1/10^15 < topSingle preds W a by
          have h0 := topSingle_nonneg preds hW a
          have : (-1 : ℚ) + 1/10^15 < 0 := by norm_num
          linarith)]
      exact tb1Fold_ne_nil _ _ (by simp)
    by_cases h2 : (tb1Fold (topSingle preds W) (-1, []) (winnersOf preds W)).2.length = 1
    · obtain ⟨a, t, ha⟩ := List.exists_cons_of_ne_nil hcne
      exact ⟨a, by
        simp only [selectWinner, if_neg h1, ha]
        rw [if_pos (show (a :: t).length = 1 from ha ▸ h2), List.head?_cons]⟩
    · obtain ⟨a, t, ha⟩ := List.exists_cons_of_ne_nil hcne
      exact ⟨t.foldl (fun b x => if bestRank prio preds W x < bestRank prio preds W b
          then x else b) a, by
        simp only [selectWinner, if_neg h1, ha, argminFirst]
        rw [if_neg (show ¬(a :: t).length = 1 from ha ▸ h2)]⟩

/-! ## Claims -/

/-- Claim C1: for every segment, `pick_ensemble_label` scores each candidate
class as the sum, over the classifiers whose non-empty prediction equals that
class, of that class's normalized weight for that classifier (`scoreOf`), and
the consensus label it returns is a predicted class whose score is maximal
among all predicted classes, up to the `1e-12` tie-detection tolerance. -/
theorem pick_label_max_score (preds : List (Clf × String)) (W : String → Clf → ℚ)
    (prio : List Clf) (u : Bool) (tau : ℚ)
    (hnd : (preds.map Prod.fst).Nodup) (hW : ∀ c k, 0 ≤ W c k)
    (hne : validOf preds ≠ []) :
    ∃ w src sc, pick_ensemble_label preds W prio u tau = some (w, src, sc) ∧
      w ∈ classesOf preds ∧
      (∀ c ∈ classesOf preds, scoreOf preds W c ≤ maxScoreOf preds W) ∧
      |scoreOf preds W w - maxScoreOf preds W| < 1/10^12 := by
  obtain ⟨w0, hsel⟩ := selectWinner_isSome prio hW hne
  have hwm := selectWinner_mem hsel
  have hcls := winnersOf_sub_classes hwm
  have hnear := winnersOf_near_max hwm
  have hmax : ∀ c ∈ classesOf preds, scoreOf preds W c ≤ maxScoreOf preds W := by
    intro c hc
    rw [maxScoreOf]
    exact le_listMax (List.mem_map.mpr ⟨c, hc, rfl⟩)
  by_cases hcond : u = true ∧ maxScoreOf preds W < tau
  · obtain ⟨hu, htau⟩ := hcond
    subst hu
    exact ⟨w0, _, _, pick_eq_low hnd hsel htau, hcls, hmax, hnear⟩
  · exact ⟨w0, _, _, pick_eq_nolow hsel hcond, hcls, hmax, hnear⟩

/-- Witness for C1: a one-voter map with constant weight `1/4`. -/
theorem pick_label_max_score_witness :
    ∃ w src sc,
      pick_ensemble_label exPreds1 exW1 CLF_PRIORITY true TAU = some (w, src, sc) ∧
      w ∈ classesOf exPreds1 ∧
      (∀ c ∈ classesOf exPreds1,
        scoreOf exPreds1 exW1 c ≤ maxScoreOf exPreds1 exW1) ∧
      |scoreOf exPreds1 exW1 w - maxScoreOf exPreds1 exW1| < 1/10^12 :=
  pick_label_max_score exPreds1 exW1 CLF_PRIORITY true TAU (by decide)
    (fun c k => by norm_num [exW1]) (by decide)

/-- Claim C2: when two or more classes tie within `1e-12`,
`pick_ensemble_label` picks the tied class backed by the single voter of
strictly highest weight (beyond the `1e-15` comparison tolerance), and when
all the tied classes' best single-voter weights are within `1e-15` of each
other it picks the tied class whose best-ranked voter comes earliest in the
priority order `CLF_PRIORITY`. -/
theorem pick_tie_break_spec (preds : List (Clf × String)) (W : String → Clf → ℚ)
    (u : Bool) (tau : ℚ)
    (hnd : (preds.map Prod.fst).Nodup) (hW : ∀ c k, 0 ≤ W c k)
    (hlen : 2 ≤ (winnersOf preds W).length) :
    (∀ w ∈ winnersOf preds W,
      (∀ c ∈ winnersOf preds W, c ≠ w →
        topSingle preds W c + 1/10^15 < topSingle preds W w) →
      ∃ src sc, pick_ensemble_label preds W CLF_PRIORITY u tau = some (w, src, sc))
    ∧ ((∀ c ∈ winnersOf preds W, ∀ d ∈ winnersOf preds W,
          |topSingle preds W c - topSingle preds W d| ≤ 1/10^15) →
        ∃ w src sc,
          pick_ensemble_label preds W CLF_PRIORITY u tau = some (w, src, sc) ∧
          w ∈ winnersOf preds W ∧
          ∀ c ∈ winnersOf preds W,
            bestRank CLF_PRIORITY preds W w ≤ bestRank CLF_PRIORITY preds W c) := by
  have hlen1 : ¬ (winnersOf preds W).length = 1 := by omega
  constructor
  · intro w hw hdom
    have hbw : (-1 : ℚ) + 1/10^15 < topSingle preds W w := by
      have h0 := topSingle_nonneg preds hW w
      have : (-1 : ℚ) + 1/10^15 < 0 := by norm_num
      linarith
    have htb : tb1Fold (topSingle preds W) (-1, []) (winnersOf preds W) =
        (topSingle preds W w, [w]) :=
      tb1Fold_dominant _ _ _ hw (winnersOf_nodup _ _) hdom hbw
    have hsel : selectWinner preds W CLF_PRIORITY = some w := by
      simp only [selectWinner, if_neg hlen1, htb]
      rw [if_pos (show ([w] : List String).length = 1 from rfl), List.head?_cons]
    by_cases hcond : u = true ∧ maxScoreOf preds W < tau
    · obtain ⟨hu, htau⟩ := hcond
      subst hu
      exact ⟨_, _, pick_eq_low hnd hsel htau⟩
    · exact ⟨_, _, pick_eq_nolow hsel hcond⟩
  · intro hpair
    have hws : winnersOf preds W ≠ [] := by
      intro h
      rw [h] at hlen
      simp at hlen
    obtain ⟨a, t, ha⟩ := List.exists_cons_of_ne_nil hws
    have hmema : a ∈ winnersOf preds W := by rw [ha]; exact List.mem_cons_self _ _
    have htb : tb1Fold (topSingle preds W) (-1, []) (winnersOf preds W) =
        (topSingle preds W a, winnersOf preds W) := by
      rw [ha, tb1Fold,
        if_pos (show (-1 : ℚ) + 1/10^15 < topSingle preds W a by
          have h0 := topSingle_nonneg preds hW a
          have : (-1 : ℚ) + 1/10^15 < 0 := by norm_num
          linarith)]
      rw [tb1Fold_all_near t (topSingle preds W a) [a] ?_]
      · simp
      · intro c hc
        exact hpair c (by rw [ha]; exact List.mem_cons_of_mem _ hc) a hmema
    have hlent : ¬ (winnersOf preds W).length = 1 := hlen1
    have hargm : argminFirst (bestRank CLF_PRIORITY preds W) (winnersOf preds W) =
        some (t.foldl (fun b x =>
          if bestRank CLF_PRIORITY preds W x < bestRank CLF_PRIORITY preds W b
          then x else b) a) := by
      rw [ha, argminFirst]
    have hsel : selectWinner preds W CLF_PRIORITY =
        some (t.foldl (fun b x =>
          if bestRank CLF_PRIORITY preds W x < bestRank CLF_PRIORITY preds W b
          then x else b) a) := by
      simp only [selectWinner, if_neg hlen1, htb, if_neg hlent, hargm]
    obtain ⟨hmem, hmin⟩ := argminFirst_spec hargm
    by_cases hcond : u = true ∧ maxScoreOf preds W < tau
    · obtain ⟨hu, htau⟩ := hcond
      subst hu
      exact ⟨_, _, _, pick_eq_low hnd hsel htau, hmem, hmin⟩
    · exact ⟨_, _, _, pick_eq_nolow hsel hcond, hmem, hmin⟩

theorem exW2_nonneg : ∀ c k, 0 ≤ exW2 c k := by
  intro c k
  simp only [exW2]
  split <;> norm_num

theorem exW2_winners : winnersOf exPreds2 exW2 = ["A", "B"] := by
  simp +decide [winnersOf, maxScoreOf, classesOf, validOf, exPreds2, firstDedup,
    firstDedupAux, listMax, scoreOf, votersFor, exW2]

theorem exW2_topA : topSingle exPreds2 exW2 "A" = 3/10 := by
  simp +decide [topSingle, votersFor, validOf, exPreds2, exW2, listMaxD]

theorem exW2_topB : topSingle exPreds2 exW2 "B" = 3/10 := by
  simp +decide [topSingle, votersFor, validOf, exPreds2, exW2, listMaxD]

/-- Witness for C2: an exact two-way tie, resolved by the priority order. -/
theorem pick_tie_break_spec_witness :
    ∃ w src sc,
      pick_ensemble_label exPreds2 exW2 CLF_PRIORITY true TAU = some (w, src, sc) ∧
      w ∈ winnersOf exPreds2 exW2 ∧
      ∀ c ∈ winnersOf exPreds2 exW2,
        bestRank CLF_PRIORITY exPreds2 exW2 w ≤ bestRank CLF_PRIORITY exPreds2 exW2 c :=
  (pick_tie_break_spec exPreds2 exW2 true TAU (by decide) exW2_nonneg
    (by rw [exW2_winners]; norm_num)).2
    (by
      intro c hc d hd
      rw [exW2_winners] at hc hd
      rcases List.mem_cons.mp hc with rfl | hc <;>
        rcases List.mem_cons.mp hd with rfl | hd <;>
          simp_all [exW2_topA, exW2_topB])

/-- Claim C3: with the fallback enabled and the winning score below
`TAU = 0.55`, `pick_ensemble_label` returns the prediction of a
maximal-weight voter `bc` for the tie-broken winner `w0` (that prediction is
`w0` itself), with the score recomputed as the total normalized weight of
the classifiers predicting the returned label. -/
theorem pick_lowconf_fallback (preds : List (Clf × String)) (W : String → Clf → ℚ)
    (w0 : String) (hnd : (preds.map Prod.fst).Nodup)
    (hsel : selectWinner preds W CLF_PRIORITY = some w0)
    (hlow : maxScoreOf preds W < TAU) :
    ∃ bc wt src,
      (bc, wt) ∈ votersFor preds W w0 ∧
      (∀ q ∈ votersFor preds W w0, q.2 ≤ wt) ∧
      preds.lookup bc = some w0 ∧
      pick_ensemble_label preds W CLF_PRIORITY true TAU =
        some (w0, src,
          ((preds.filter (fun p => p.2 = w0)).map (fun p => W w0 p.1)).sum) := by
  have hcls : w0 ∈ classesOf preds := winnersOf_sub_classes (selectWinner_mem hsel)
  have hw0 : w0 ≠ "" := classesOf_ne_empty_str hcls
  obtain ⟨v, vs, hv⟩ := List.exists_cons_of_ne_nil (votersFor_ne_nil (W := W) hcls)
  have hbest := foldBest_spec v vs
  rw [← hv] at hbest
  refine ⟨(vs.foldl (fun b x => if b.2 < x.2 then x else b) v).1,
    (vs.foldl (fun b x => if b.2 < x.2 then x else b) v).2,
    srcList CLF_PRIORITY preds w0, ?_, ?_, ?_, ?_⟩
  · exact hbest.1
  · exact hbest.2
  · exact lookup_eq_of_mem_nodup hnd (mem_votersFor hbest.1).1
  · rw [pick_eq_low hnd hsel hlow, recomputed_eq_scoreOf hw0]

theorem exW1_select : selectWinner exPreds1 exW1 CLF_PRIORITY = some "A" := by
  simp +decide [selectWinner, winnersOf, maxScoreOf, classesOf, validOf, exPreds1,
    firstDedup, firstDedupAux, listMax, scoreOf, votersFor, exW1]

theorem exW1_maxScore : maxScoreOf exPreds1 exW1 = 1/4 := by
  simp +decide [maxScoreOf, classesOf, validOf, exPreds1, firstDedup, firstDedupAux,
    listMax, scoreOf, votersFor, exW1]

/-- Witness for C3: a single voter of weight `1/4 < 0.55`. -/
theorem pick_lowconf_fallback_witness :
    ∃ bc wt src,
      (bc, wt) ∈ votersFor exPreds1 exW1 "A" ∧
      (∀ q ∈ votersFor exPreds1 exW1 "A", q.2 ≤ wt) ∧
      exPreds1.lookup bc = some "A" ∧
      pick_ensemble_label exPreds1 exW1 CLF_PRIORITY true TAU =
        some ("A", src,
          ((exPreds1.filter (fun p => p.2 = "A")).map (fun p => exW1 "A" p.1)).sum) :=
  pick_lowconf_fallback exPreds1 exW1 "A" (by decide) exW1_select
    (by rw [exW1_maxScore, TAU]; norm_num)

theorem pick_of_selectWinner_none {preds : List (Clf × String)}
    {W : String → Clf → ℚ} {prio : List Clf} {u : Bool} {tau : ℚ}
    (hsel : selectWinner preds W prio = none) :
    pick_ensemble_label preds W prio u tau = none := by
  rw [pick_ensemble_label]
  split
  · rfl
  · rw [hsel]

/-- Amended C4: `use_lowconf` never changes the returned label or sources
(the best-weighted voter for the winner predicted the winner itself), and it
leaves the whole triple unchanged whenever the fallback does not fire or the
tie-broken winner's own summed score equals the maximal score; the score
component alone can differ when a near-tie is resolved to a class whose
summed score is strictly below the maximum. -/
theorem pick_lowconf_preserves_label_src (preds : List (Clf × String))
    (W : String → Clf → ℚ) (tau : ℚ) (hnd : (preds.map Prod.fst).Nodup) :
    (Option.map (fun t => (t.1, t.2.1))
        (pick_ensemble_label preds W CLF_PRIORITY true tau) =
      Option.map (fun t => (t.1, t.2.1))
        (pick_ensemble_label preds W CLF_PRIORITY false tau))
    ∧ (∀ w0, selectWinner preds W CLF_PRIORITY = some w0 →
        scoreOf preds W w0 = maxScoreOf preds W →
        pick_ensemble_label preds W CLF_PRIORITY true tau =
          pick_ensemble_label preds W CLF_PRIORITY false tau) := by
  cases hsel : selectWinner preds W CLF_PRIORITY with
  | none =>
    refine ⟨?_, ?_⟩
    · rw [pick_of_selectWinner_none hsel, pick_of_selectWinner_none hsel]
    · intro w0 hsel2
      cases hsel2
  | some w0 =>
    have hfalse : ¬(false = true ∧ maxScoreOf preds W < tau) := by
      rintro ⟨h, -⟩
      cases h
    constructor
    · by_cases htau : maxScoreOf preds W < tau
      · rw [pick_eq_low hnd hsel htau, pick_eq_nolow hsel hfalse]
        rfl
      · rw [pick_eq_nolow hsel (by rintro ⟨-, h⟩; exact htau h),
          pick_eq_nolow hsel hfalse]
    · intro w1 hsel1 hscore
      injection hsel1 with hw1
      subst hw1
      by_cases htau : maxScoreOf preds W < tau
      · rw [pick_eq_low hnd hsel htau, pick_eq_nolow hsel hfalse, hscore]
      · rw [pick_eq_nolow hsel (by rintro ⟨-, h⟩; exact htau h),
          pick_eq_nolow hsel hfalse]

/-- Witness for the amended C4. -/
theorem pick_lowconf_preserves_label_src_witness :
    (Option.map (fun t => (t.1, t.2.1))
        (pick_ensemble_label exPreds1 exW1 CLF_PRIORITY true TAU) =
      Option.map (fun t => (t.1, t.2.1))
        (pick_ensemble_label exPreds1 exW1 CLF_PRIORITY false TAU))
    ∧ (∀ w0, selectWinner exPreds1 exW1 CLF_PRIORITY = some w0 →
        scoreOf exPreds1 exW1 w0 = maxScoreOf exPreds1 exW1 →
        pick_ensemble_label exPreds1 exW1 CLF_PRIORITY true TAU =
          pick_ensemble_label exPreds1 exW1 CLF_PRIORITY false TAU) :=
  pick_lowconf_preserves_label_src exPreds1 exW1 TAU (by decide)

theorem cex_classes : classesOf cexPreds = ["A", "B"] := by decide

theorem cex_scoreA : scoreOf cexPreds cexW "A" = 3/10 := by
  norm_num +decide [scoreOf, votersFor, validOf, cexPreds, cexW]

theorem cex_scoreB : scoreOf cexPreds cexW "B" = 3/10 - 1/10^13 := by
  norm_num +decide [scoreOf, votersFor, validOf, cexPreds, cexW]

theorem cex_max : maxScoreOf cexPreds cexW = 3/10 := by
  rw [maxScoreOf, cex_classes, List.map_cons, List.map_cons, List.map_nil,
    cex_scoreA, cex_scoreB, listMax]
  rw [List.foldl_cons, List.foldl_nil]
  rw [max_eq_left (by norm_num)]

theorem cex_winners : winnersOf cexPreds cexW = ["A", "B"] := by
  rw [winnersOf, cex_classes]
  rw [List.filter_cons, List.filter_cons]
  rw [cex_scoreA, cex_scoreB, cex_max]
  norm_num
  rw [abs_of_pos (show (0:ℚ) < 1/10000000000000 by norm_num)]
  norm_num

theorem cex_topA : topSingle cexPreds cexW "A" = 3/20 := by
  norm_num +decide [topSingle, votersFor, validOf, cexPreds, cexW, listMaxD]

theorem cex_topB : topSingle cexPreds cexW "B" = 3/10 - 1/10^13 := by
  norm_num +decide [topSingle, votersFor, validOf, cexPreds, cexW, listMaxD]

theorem cex_select : selectWinner cexPreds cexW CLF_PRIORITY = some "B" := by
  simp only [selectWinner, cex_winners]
  rw [if_neg (by norm_num)]
  rw [tb1Fold, if_pos (show ((-1 : ℚ), ([] : List String)).1 + 1/10^15 <
      topSingle cexPreds cexW "A" by rw [cex_topA]; norm_num)]
  rw [tb1Fold, if_pos (show (topSingle cexPreds cexW "A",
      (["A"] : List String)).1 + 1/10^15 <
      topSingle cexPreds cexW "B" by rw [cex_topA, cex_topB]; norm_num)]
  rw [tb1Fold]
  rfl

theorem cex_pick_false :
    pick_ensemble_label cexPreds cexW CLF_PRIORITY false (11/20) =
      some ("B", srcList CLF_PRIORITY cexPreds "B", 3/10) := by
  rw [pick_eq_nolow cex_select (by rintro ⟨h, -⟩; cases h), cex_max]

theorem cex_pick_true :
    pick_ensemble_label cexPreds cexW CLF_PRIORITY true (11/20) =
      some ("B", srcList CLF_PRIORITY cexPreds "B", 3/10 - 1/10^13) := by
  rw [pick_eq_low (by decide) cex_select (by rw [cex_max]; norm_num), cex_scoreB]

/-- Counterexample to C4: on `cexPreds`/`cexW` the two classes' scores
differ by `1e-13` (a near-tie) and tie-break 1 resolves to the class whose
summed score is strictly below the maximum, so the enabled fallback
recomputes the score and the returned triples differ. -/
theorem pick_lowconf_differs_cex :
    pick_ensemble_label cexPreds cexW CLF_PRIORITY true (11/20) ≠
      pick_ensemble_label cexPreds cexW CLF_PRIORITY false (11/20) := by
  rw [cex_pick_true, cex_pick_false]
  simp only [ne_eq, Option.some.injEq, Prod.mk.injEq, not_and]
  intro h1 h2
  norm_num

theorem list_sum_map_div (l : List (Clf × ℚ)) (s : ℚ) :
    ((l.map (fun q => (q.1, q.2 / s))).map Prod.snd).sum =
      (l.map Prod.snd).sum / s := by
  induction l with
  | nil => simp
  | cons a t ih =>
    simp only [List.map_cons, List.sum_cons, ih, add_div]

theorem poweredOf_nonneg {d : List (Clf × ℚ)} (power : ℕ)
    (hnn : ∀ q ∈ d, 0 ≤ q.2) : ∀ q ∈ poweredOf d power, 0 ≤ q.2 := by
  intro q hq
  rw [poweredOf, List.mem_map] at hq
  obtain ⟨p, hp, rfl⟩ := hq
  simp only
  split
  · exact pow_nonneg (hnn p hp) power
  · exact hnn p hp

/-- Claim C6: `normalize_per_class` maps each class entry to the
(power-raised) raw weights divided by their sum when that sum is positive —
so each normalized weight lies in `[0, 1]` and the per-class weights sum to
`1` — and to all-zero weights when the sum is zero; with power `1` the raw
weights are used unexponentiated. -/
theorem normalize_per_class_spec (wm : List (String × List (Clf × ℚ)))
    (power : ℕ) (cls : String) (d : List (Clf × ℚ))
    (hmem : (cls, d) ∈ wm) (hnn : ∀ q ∈ d, 0 ≤ q.2) :
    (cls, normalize_class d power) ∈ normalize_per_class wm power
    ∧ (0 < ((poweredOf d power).map Prod.snd).sum →
        normalize_class d power = (poweredOf d power).map
          (fun q => (q.1, q.2 / ((poweredOf d power).map Prod.snd).sum))
        ∧ (∀ q ∈ normalize_class d power, 0 ≤ q.2 ∧ q.2 ≤ 1)
        ∧ ((normalize_class d power).map Prod.snd).sum = 1)
    ∧ (((poweredOf d power).map Prod.snd).sum = 0 →
        ∀ q ∈ normalize_class d power, q.2 = 0)
    ∧ (power = 1 → poweredOf d power = d) := by
  have hpnn := poweredOf_nonneg power hnn
  refine ⟨?_, ?_, ?_, ?_⟩
  · rw [normalize_per_class]
    exact List.mem_map.mpr ⟨(cls, d), hmem, rfl⟩
  · intro hs
    have heq : normalize_class d power = (poweredOf d power).map
        (fun q => (q.1, q.2 / ((poweredOf d power).map Prod.snd).sum)) := by
      simp only [normalize_class]
      rw [if_pos hs]
    refine ⟨heq, ?_, ?_⟩
    · intro q hq
      rw [heq, List.mem_map] at hq
      obtain ⟨p, hp, rfl⟩ := hq
      simp only
      constructor
      · exact div_nonneg (hpnn p hp) (le_of_lt hs)
      · rw [div_le_one hs]
        exact List.single_le_sum
          (fun x hx => by
            rw [List.mem_map] at hx
            obtain ⟨q2, hq2, rfl⟩ := hx
            exact hpnn q2 hq2) _
          (List.mem_map.mpr ⟨p, hp, rfl⟩)
    · rw [heq, list_sum_map_div]
      exact div_self (ne_of_gt hs)
  · intro hs
    have heq : normalize_class d power = d.map (fun p => (p.1, (0 : ℚ))) := by
      simp only [normalize_class]
      rw [if_neg (by rw [hs]; exact lt_irrefl 0)]
    intro q hq
    rw [heq, List.mem_map] at hq
    obtain ⟨p, hp, rfl⟩ := hq
    rfl
  · intro h1
    subst h1
    simp [poweredOf]

/-- Witness for C6. -/
theorem normalize_per_class_spec_witness :
    ("A", normalize_class exD 1) ∈ normalize_per_class exWM 1
    ∧ (0 < ((poweredOf exD 1).map Prod.snd).sum →
        normalize_class exD 1 = (poweredOf exD 1).map
          (fun q => (q.1, q.2 / ((poweredOf exD 1).map Prod.snd).sum))
        ∧ (∀ q ∈ normalize_class exD 1, 0 ≤ q.2 ∧ q.2 ≤ 1)
        ∧ ((normalize_class exD 1).map Prod.snd).sum = 1)
    ∧ (((poweredOf exD 1).map Prod.snd).sum = 0 →
        ∀ q ∈ normalize_class exD 1, q.2 = 0)
    ∧ ((1 : ℕ) = 1 → poweredOf exD 1 = exD) :=
  normalize_per_class_spec exWM 1 "A" exD
    (by rw [exWM]; exact List.mem_singleton.mpr rfl)
    (by
      intro q hq
      rw [exD] at hq
      rcases List.mem_cons.mp hq with rfl | hq
      · norm_num
      · rcases List.mem_singleton.mp hq with rfl
        norm_num)

/-- Claim C7: every per-class metric of the accuracy table equals its
defining ratio, with a zero denominator yielding `0.0` instead of raising,
and the overall accuracy is the summed correct area over the summed
reference area, or `0.0` when that total is zero. -/
theorem accuracy_metrics_spec (c r p : ℚ) (rows : List (ℚ × ℚ)) :
    ((r ≠ 0 → Producer_Accuracy c r = c / r) ∧ (r = 0 → Producer_Accuracy c r = 0))
    ∧ ((p ≠ 0 → User_Accuracy c p = c / p) ∧ (p = 0 → User_Accuracy c p = 0))
    ∧ ((r + p - c ≠ 0 → IoU c r p = c / (r + p - c)) ∧
        (r + p - c = 0 → IoU c r p = 0))
    ∧ ((Producer_Accuracy c r + User_Accuracy c p ≠ 0 →
          F1_Score c r p = 2 * (Producer_Accuracy c r * User_Accuracy c p) /
            (Producer_Accuracy c r + User_Accuracy c p)) ∧
        (Producer_Accuracy c r + User_Accuracy c p = 0 → F1_Score c r p = 0))
    ∧ (((rows.map Prod.snd).sum ≠ 0 →
          overall_accuracy rows = (rows.map Prod.fst).sum / (rows.map Prod.snd).sum) ∧
        ((rows.map Prod.snd).sum = 0 → overall_accuracy rows = 0)) := by
  refine ⟨⟨?_, ?_⟩, ⟨?_, ?_⟩, ⟨?_, ?_⟩, ⟨?_, ?_⟩, ⟨?_, ?_⟩⟩ <;> intro h
  · simp [Producer_Accuracy, safe_div, h]
  · simp [Producer_Accuracy, safe_div, h]
  · simp [User_Accuracy, safe_div, h]
  · simp [User_Accuracy, safe_div, h]
  · simp [IoU, safe_div, h]
  · simp [IoU, safe_div, h]
  · rw [F1_Score, if_pos h, safe_div, if_pos h]
  · rw [F1_Score, if_neg (fun hne => hne h)]
  · simp [overall_accuracy, h]
  · simp [overall_accuracy, h]

/-- Witness for C7. -/
theorem accuracy_metrics_spec_witness :
    Producer_Accuracy 1 2 = 1 / 2 ∧ overall_accuracy [((1 : ℚ), 2)] = 1 / 2 := by
  constructor
  · exact (accuracy_metrics_spec 1 2 4 [((1 : ℚ), 2)]).1.1 (by norm_num)
  · have h := ((accuracy_metrics_spec 1 2 4 [((1 : ℚ), 2)]).2.2.2.2).1 (by simp)
    rw [h]
    norm_num

/-- Claim C8: `read_metric_table` never propagates a conversion error —
NaN, missing and non-numeric cells are stored as `0.0`, negative values are
clamped to `0.0`, and every value of the returned class-to-weight map is
non-negative. -/
theorem read_metric_table_nonneg (rows : List (String × Cell)) :
    (∀ q ∈ read_metric_table rows, 0 ≤ q.2)
    ∧ tryFloat Cell.nan = 0 ∧ tryFloat Cell.missing = 0
    ∧ tryFloat Cell.nonNumeric = 0
    ∧ (∀ v : ℚ, v < 0 → max 0 (tryFloat (Cell.num v)) = 0) := by
  refine ⟨?_, rfl, rfl, rfl, ?_⟩
  · suffices H : ∀ (rows : List (String × Cell)) (acc : List (String × ℚ)),
        (∀ q ∈ acc, 0 ≤ q.2) →
        ∀ q ∈ rows.foldl (fun W r => dictInsert W r.1 (max 0 (tryFloat r.2))) acc,
          0 ≤ q.2 by
      exact H rows [] (by simp)
    intro rows
    induction rows with
    | nil => intro acc hacc; exact hacc
    | cons a t ih =>
      intro acc hacc
      rw [List.foldl_cons]
      refine ih _ ?_
      intro q hq
      rw [dictInsert] at hq
      split at hq
      · rw [List.mem_map] at hq
        obtain ⟨p, hp, hqe⟩ := hq
        by_cases hpk : p.1 = a.1
        · rw [← hqe, if_pos hpk]
          exact le_max_left 0 _
        · rw [← hqe, if_neg hpk]
          exact hacc p hp
      · rcases List.mem_append.mp hq with h | h
        · exact hacc q h
        · rcases List.mem_singleton.mp h with rfl
          exact le_max_left 0 _
  · intro v hv
    rw [tryFloat]
    exact max_eq_left (le_of_lt hv)

/-- Witness for C8: a negative metric value is clamped to `0.0`. -/
theorem read_metric_table_nonneg_witness :
    (("A", max 0 (tryFloat (Cell.num (-3)))) ∈
        read_metric_table [("A", Cell.num (-3))])
    ∧ (0 : ℚ) ≤ (("A", max 0 (tryFloat (Cell.num (-3)))) : String × ℚ).2
    ∧ max 0 (tryFloat (Cell.num (-3))) = 0 := by
  have hmem : ("A", max 0 (tryFloat (Cell.num (-3)))) ∈
      read_metric_table [("A", Cell.num (-3))] := by
    simp [read_metric_table, dictInsert]
  refine ⟨hmem, ?_, ?_⟩
  · exact (read_metric_table_nonneg [("A", Cell.num (-3))]).1 _ hmem
  · exact (read_metric_table_nonneg [("A", Cell.num (-3))]).2.2.2.2 (-3) (by norm_num)

theorem upperPairs_mem_comp {names : List String} {corr : String → String → ℚ}
    {t : String × String × ℚ} (ht : t ∈ upperPairs names corr) :
    t.1 ∈ names ∧ t.2.1 ∈ names := by
  induction names with
  | nil => cases ht
  | cons a rest ih =>
    rw [upperPairs] at ht
    rcases List.mem_append.mp ht with h | h
    · obtain ⟨y1, hy1, rfl⟩ := List.mem_map.mp h
      exact ⟨List.mem_cons_self _ _, List.mem_cons_of_mem _ hy1⟩
    · obtain ⟨h1, h2⟩ := ih h
      exact ⟨List.mem_cons_of_mem _ h1, List.mem_cons_of_mem _ h2⟩

/-- Claim C10: the correlation pair extraction considers each unordered pair
of distinct rasters exactly once (the strict upper triangle), retains
exactly the pairs of absolute correlation strictly above `0.85`, and the
`high_corr_pairs.csv` file is written iff at least one such pair exists. -/
theorem high_corr_pairs_spec (names : List String) (corr : String → String → ℚ)
    (x y : String) (hnd : names.Nodup) (hx : x ∈ names) (hy : y ∈ names)
    (hxy : x ≠ y) :
    (upperPairs names corr).countP
        (fun t => decide ((t.1 = x ∧ t.2.1 = y) ∨ (t.1 = y ∧ t.2.1 = x))) = 1
    ∧ (∀ t ∈ upperPairs names corr,
        t ∈ high_corr_filtered names corr (85/100) ↔ (85/100 : ℚ) < |t.2.2|)
    ∧ (writes_high_corr_csv names corr = true ↔
        high_corr_filtered names corr (85/100) ≠ []) := by
  refine ⟨?_, ?_, ?_⟩
  · induction names with
    | nil => cases hx
    | cons a rest ih =>
      rw [List.nodup_cons] at hnd
      rw [upperPairs, List.countP_append, List.countP_map]
      by_cases hxa : x = a
      · subst hxa
        have hyr : y ∈ rest := by
          rcases List.mem_cons.mp hy with rfl | h
          · exact absurd rfl hxy
          · exact h
        have h1 : rest.countP ((fun t => decide ((t.1 = x ∧ t.2.1 = y) ∨
            (t.1 = y ∧ t.2.1 = x))) ∘ (fun z => (x, z, corr x z))) = 1 := by
          rw [List.countP_congr (q := fun z => z == y) ?_]
          · exact List.count_eq_one_of_mem hnd.2 hyr
          · intro z _
            simp [Function.comp, hxy, Ne.symm hxy]
        have h2 : (upperPairs rest corr).countP
            (fun t => decide ((t.1 = x ∧ t.2.1 = y) ∨ (t.1 = y ∧ t.2.1 = x))) = 0 := by
          rw [List.countP_eq_zero]
          intro t ht
          obtain ⟨hm1, hm2⟩ := upperPairs_mem_comp ht
          simp only [decide_eq_true_eq]
          rintro (⟨he1, -⟩ | ⟨-, he2⟩)
          · exact hnd.1 (he1 ▸ hm1)
          · exact hnd.1 (he2 ▸ hm2)
        rw [h1, h2]
      · by_cases hya : y = a
        · subst hya
          have hxr : x ∈ rest := by
            rcases List.mem_cons.mp hx with rfl | h
            · exact absurd rfl hxa
            · exact h
          have h1 : rest.countP ((fun t => decide ((t.1 = x ∧ t.2.1 = y) ∨
              (t.1 = y ∧ t.2.1 = x))) ∘ (fun z => (y, z, corr y z))) = 1 := by
            rw [List.countP_congr (q := fun z => z == x) ?_]
            · exact List.count_eq_one_of_mem hnd.2 hxr
            · intro z _
              simp [Function.comp, hxa, Ne.symm hxa]
          have h2 : (upperPairs rest corr).countP
              (fun t => decide ((t.1 = x ∧ t.2.1 = y) ∨ (t.1 = y ∧ t.2.1 = x))) = 0 := by
            rw [List.countP_eq_zero]
            intro t ht
            obtain ⟨hm1, hm2⟩ := upperPairs_mem_comp ht
            simp only [decide_eq_true_eq]
            rintro (⟨-, he1⟩ | ⟨he2, -⟩)
            · exact hnd.1 (he1 ▸ hm2)
            · exact hnd.1 (he2 ▸ hm1)
          rw [h1, h2]
        · have hxr : x ∈ rest := by
            rcases List.mem_cons.mp hx with rfl | h
            · exact absurd rfl hxa
            · exact h
          have hyr : y ∈ rest := by
            rcases List.mem_cons.mp hy with rfl | h
            · exact absurd rfl hya
            · exact h
          have h1 : rest.countP ((fun t => decide ((t.1 = x ∧ t.2.1 = y) ∨
              (t.1 = y ∧ t.2.1 = x))) ∘ (fun z => (a, z, corr a z))) = 0 := by
            rw [List.countP_eq_zero]
            intro z _
            simp only [Function.comp_apply, decide_eq_true_eq]
            rintro (⟨he, -⟩ | ⟨he, -⟩)
            · exact hxa he.symm
            · exact hya he.symm
          rw [h1, ih hnd.2 hxr hyr]
  · intro t ht
    rw [high_corr_filtered, List.mem_filter]
    simp [ht]
  · rw [writes_high_corr_csv]
    simp


/-- Witness for C10: three rasters, one highly-correlated pair. -/
theorem high_corr_pairs_spec_witness :
    (upperPairs ["A", "B", "C"] (fun _ _ => 9/10)).countP
        (fun t => decide ((t.1 = "A" ∧ t.2.1 = "C") ∨ (t.1 = "C" ∧ t.2.1 = "A"))) = 1
    ∧ (∀ t ∈ upperPairs ["A", "B", "C"] (fun _ _ => 9/10),
        t ∈ high_corr_filtered ["A", "B", "C"] (fun _ _ => 9/10) (85/100) ↔
          (85/100 : ℚ) < |t.2.2|)
    ∧ (writes_high_corr_csv ["A", "B", "C"] (fun _ _ => 9/10) = true ↔
        high_corr_filtered ["A", "B", "C"] (fun _ _ => 9/10) (85/100) ≠ []) :=
  high_corr_pairs_spec ["A", "B", "C"] (fun _ _ => 9/10) "A" "C"
    (by decide) (by decide) (by decide) (by decide)

theorem buildPreds_cons_none (k : Clf) (l : List (Clf × Option String)) :
    buildPreds ((k, none) :: l) = buildPreds l := rfl

theorem buildPreds_cons_empty (k : Clf) (l : List (Clf × Option String)) :
    buildPreds ((k, some "") :: l) = buildPreds l := rfl

theorem buildPreds_cons_some (k : Clf) (s : String) (hs : s ≠ "")
    (l : List (Clf × Option String)) :
    buildPreds ((k, some s) :: l) = (k, s) :: buildPreds l := by
  simp only [buildPreds, List.filterMap_cons]
  rw [if_neg hs]

theorem lookup_buildPreds_skip (k k1 : Clf) (v : Option String)
    (l : List (Clf × Option String)) (hk : k ≠ k1) :
    (buildPreds ((k1, v) :: l)).lookup k = (buildPreds l).lookup k := by
  cases v with
  | none => rfl
  | some s =>
    by_cases hs : s = ""
    · subst hs
      rfl
    · rw [buildPreds_cons_some k1 s hs]
      simp [List.lookup, beq_false_of_ne hk]

theorem lookup_buildPreds_svm60 (v1 v2 v3 v4 : Option String) :
    (buildPreds (rowVals v1 v2 v3 v4)).lookup Clf.SVMv11A2D60 =
      (match v4 with
        | none => none
        | some s => if s = "" then none else some s) := by
  rw [rowVals, lookup_buildPreds_skip _ _ _ _ (by decide),
    lookup_buildPreds_skip _ _ _ _ (by decide),
    lookup_buildPreds_skip _ _ _ _ (by decide)]
  cases v4 with
  | none => rfl
  | some s =>
    by_cases hs : s = ""
    · subst hs
      rfl
    · rw [buildPreds_cons_some _ s hs]
      simp [List.lookup, hs]

theorem wb_cond_iff (v1 v2 v3 v4 : Option String) :
    (buildPreds (rowVals v1 v2 v3 v4)).lookup SVM_RIVER_CLF = some CLS_WATER ↔
      v4 = some CLS_WATER := by
  rw [SVM_RIVER_CLF, lookup_buildPreds_svm60]
  cases v4 with
  | none => simp
  | some s =>
    by_cases hs : s = ""
    · subst hs
      simp +decide [CLS_WATER]
    · simp only [Option.some.injEq]
      rw [if_neg hs]
      simp

theorem mem_buildPreds_svm60 {v1 v2 v3 v4 : Option String}
    (hv4 : v4 = some CLS_WATER) :
    (Clf.SVMv11A2D60, CLS_WATER) ∈ buildPreds (rowVals v1 v2 v3 v4) := by
  subst hv4
  rw [buildPreds, rowVals]
  refine List.mem_filterMap.mpr ⟨(Clf.SVMv11A2D60, some CLS_WATER), ?_, ?_⟩
  · simp
  · simp only
    rw [if_neg (by decide)]

/-- Claim C5: with the water-body rule enabled, a segment whose mean DEM
elevation is present and at most `ELEV_THRESH = 220` and whose SVM-D60
prediction is `WATER BODY` gets the final label `WATER BODY`, a source field
listing exactly the classifiers that predicted `WATER BODY` sorted by
priority and joined with `+`, and the summed normalized `WATER BODY`
weights of those classifiers as score; every other segment keeps the
ensemble result unchanged (the override never switches a label away from
`WATER BODY`). -/
theorem wb_elev_rule_spec :
    (∀ v1 v2 v3 v4 (W : String → Clf → ℚ) (z : ℚ), z ≤ ELEV_THRESH →
      v4 = some CLS_WATER →
      ∃ srcW, srcW ≠ [] ∧
        srcW.Perm (((buildPreds (rowVals v1 v2 v3 v4)).filter
          (fun p => p.2 = CLS_WATER)).map Prod.fst) ∧
        srcW.Pairwise (fun a b => rankOf CLF_PRIORITY a ≤ rankOf CLF_PRIORITY b) ∧
        processRow v1 v2 v3 v4 W (some z) true =
          { e5 := some CLS_WATER,
            e5_src := some (String.intercalate "+" (srcW.map clfName)),
            e5_score := some (((buildPreds (rowVals v1 v2 v3 v4)).filter
              (fun p => p.2 = CLS_WATER)).map (fun p => W CLS_WATER p.1)).sum })
    ∧ (∀ v1 v2 v3 v4 (W : String → Clf → ℚ) (mz : Option ℚ),
        ¬(∃ z, mz = some z ∧ z ≤ ELEV_THRESH ∧ v4 = some CLS_WATER) →
        processRow v1 v2 v3 v4 W mz true = processRow v1 v2 v3 v4 W mz false) := by
  constructor
  · intro v1 v2 v3 v4 W z hz hv4
    have hcond : (buildPreds (rowVals v1 v2 v3 v4)).lookup SVM_RIVER_CLF =
        some CLS_WATER := (wb_cond_iff v1 v2 v3 v4).mpr hv4
    have hmemf : Clf.SVMv11A2D60 ∈
        ((buildPreds (rowVals v1 v2 v3 v4)).filter
          (fun p => p.2 = CLS_WATER)).map Prod.fst :=
      List.mem_map.mpr ⟨(Clf.SVMv11A2D60, CLS_WATER),
        List.mem_filter.mpr ⟨mem_buildPreds_svm60 hv4, by simp⟩, rfl⟩
    have hperm : (srcList CLF_PRIORITY (buildPreds (rowVals v1 v2 v3 v4))
        CLS_WATER).Perm (((buildPreds (rowVals v1 v2 v3 v4)).filter
          (fun p => p.2 = CLS_WATER)).map Prod.fst) := by
      rw [srcList]
      exact List.perm_insertionSort _ _
    have hne : srcList CLF_PRIORITY (buildPreds (rowVals v1 v2 v3 v4))
        CLS_WATER ≠ [] := by
      intro h
      rw [h] at hperm
      exact List.ne_nil_of_mem hmemf hperm.symm.eq_nil
    refine ⟨srcList CLF_PRIORITY (buildPreds (rowVals v1 v2 v3 v4)) CLS_WATER,
      hne, hperm, ?_, ?_⟩
    · rw [srcList]
      haveI : IsTotal Clf (fun a b => rankOf CLF_PRIORITY a ≤ rankOf CLF_PRIORITY b) :=
        ⟨fun a b => Nat.le_total _ _⟩
      haveI : IsTrans Clf (fun a b => rankOf CLF_PRIORITY a ≤ rankOf CLF_PRIORITY b) :=
        ⟨fun _ _ _ hab hbc => le_trans hab hbc⟩
      exact List.sorted_insertionSort _ _
    · have hov : ∀ r, wbOverride (buildPreds (rowVals v1 v2 v3 v4)) W
          CLF_PRIORITY (some z) r =
          (some CLS_WATER,
            srcList CLF_PRIORITY (buildPreds (rowVals v1 v2 v3 v4)) CLS_WATER,
            (((buildPreds (rowVals v1 v2 v3 v4)).filter
              (fun p => p.2 = CLS_WATER)).map (fun p => W CLS_WATER p.1)).sum) := by
        intro r
        simp only [wbOverride]
        rw [if_pos ⟨hz, hcond⟩]
      simp only [processRow, hov, if_true]
      rw [if_neg (show ¬CLS_WATER = "" by decide), if_neg hne]
  · intro v1 v2 v3 v4 W mz hncond
    have hov : ∀ r, wbOverride (buildPreds (rowVals v1 v2 v3 v4)) W
        CLF_PRIORITY mz r = r := by
      intro r
      cases mz with
      | none => rfl
      | some z =>
        simp only [wbOverride]
        rw [if_neg ?_]
        rintro ⟨h1, h2⟩
        exact hncond ⟨z, rfl, h1, (wb_cond_iff v1 v2 v3 v4).mp h2⟩
    simp only [processRow, hov, if_true, Bool.false_eq_true, if_false]

/-- Witness for C5: elevation 100 ≤ 220 and an SVM-D60 `WATER BODY` vote. -/
theorem wb_elev_rule_spec_witness :
    ∃ srcW, srcW ≠ [] ∧
      srcW.Perm (((buildPreds (rowVals none none none (some CLS_WATER))).filter
        (fun p => p.2 = CLS_WATER)).map Prod.fst) ∧
      srcW.Pairwise (fun a b => rankOf CLF_PRIORITY a ≤ rankOf CLF_PRIORITY b) ∧
      processRow none none none (some CLS_WATER) exW1 (some 100) true =
        { e5 := some CLS_WATER,
          e5_src := some (String.intercalate "+" (srcW.map clfName)),
          e5_score := some (((buildPreds (rowVals none none none
            (some CLS_WATER))).filter
            (fun p => p.2 = CLS_WATER)).map (fun p => exW1 CLS_WATER p.1)).sum } :=
  wb_elev_rule_spec.1 none none none (some CLS_WATER) exW1 100
    (by rw [ELEV_THRESH]; norm_num) rfl

/-- Claim C9: when all four prediction fields are NULL or empty,
`pick_ensemble_label` returns the empty result (Python `(None, [], 0.0)`,
modelled as `none`) and the update loop writes NULL to `E5`, NULL to
`E5_src`, and the number `0.0` (not NULL) to `E5_score`. -/
theorem all_null_predictions_spec (v1 v2 v3 v4 : Option String)
    (W : String → Clf → ℚ) (mz : Option ℚ) (enable : Bool)
    (h1 : v1 = none ∨ v1 = some "") (h2 : v2 = none ∨ v2 = some "")
    (h3 : v3 = none ∨ v3 = some "") (h4 : v4 = none ∨ v4 = some "") :
    pick_ensemble_label (buildPreds (rowVals v1 v2 v3 v4)) W CLF_PRIORITY
      USE_LOWCONF_FALLBACK TAU = none
    ∧ processRow v1 v2 v3 v4 W mz enable =
      { e5 := none, e5_src := none, e5_score := some 0 } := by
  have hbp : buildPreds (rowVals v1 v2 v3 v4) = [] := by
    rcases h1 with rfl | rfl <;> rcases h2 with rfl | rfl <;>
      rcases h3 with rfl | rfl <;> rcases h4 with rfl | rfl <;> rfl
  have hpick : pick_ensemble_label ([] : List (Clf × String)) W CLF_PRIORITY
      USE_LOWCONF_FALLBACK TAU = none := by
    rw [pick_ensemble_label,
      if_pos (show validOf ([] : List (Clf × String)) = [] from rfl)]
  constructor
  · rw [hbp]
    exact hpick
  · have hov : ∀ r, wbOverride ([] : List (Clf × String)) W CLF_PRIORITY mz r = r := by
      intro r
      cases mz with
      | none => rfl
      | some z =>
        simp only [wbOverride]
        rw [if_neg ?_]
        rintro ⟨-, h⟩
        cases h
    simp only [processRow, hbp, hpick, hov]
    cases enable <;> rfl

/-- Witness for C9. -/
theorem all_null_predictions_spec_witness :
    pick_ensemble_label (buildPreds (rowVals none (some "") none none)) exW1
      CLF_PRIORITY USE_LOWCONF_FALLBACK TAU = none
    ∧ processRow none (some "") none none exW1 (some 100) true =
      { e5 := none, e5_src := none, e5_score := some 0 } :=
  all_null_predictions_spec none (some "") none none exW1 (some 100) true
    (Or.inl rfl) (Or.inr rfl) (Or.inl rfl) (Or.inl rfl)
